import Mathlib

/-!
# L-system visualizer: verification of the string-rewriting core

A shallow embedding of the L-system visualizer's core: the rule-table
parser (`parseRules`), the grammar expander (`expand`), the turtle
interpreter (`interpret`), and the batch animation scheduler.

JavaScript strings are modelled as `List Char` (`for...of` iterates code
points, which matches `List Char` exactly).  The trigonometric functions
and π used by the turtle interpreter are abstracted into a `Trig`
structure so that every definition stays computable; the geometric
claims proved below are structural and hold for every interpretation of
`cos`, `sin` and `pi`.
-/

/-- A JavaScript string, modelled as its list of code points. -/
abbrev JSStr := List Char

/-- The characters removed by JavaScript `String.prototype.trim` that can
occur in rule text (the ASCII whitespace range). -/
def jsWhitespace (c : Char) : Bool :=
  c == ' ' || c == '\t' || c == '\n' || c == '\r' || c == '\x0b' || c == '\x0c'

/-- JavaScript `s.trim()`: strip leading and trailing whitespace. -/
def jsTrim (s : JSStr) : JSStr :=
  ((s.dropWhile jsWhitespace).reverse.dropWhile jsWhitespace).reverse

/-- JavaScript `s.split("\n")`. -/
def splitNl (s : JSStr) : List JSStr :=
  s.foldr (fun c acc => if c = '\n' then [] :: acc else (c :: acc.headD []) :: acc.tail) [[]]

/-- JavaScript `s.indexOf(c)`, with `none` standing for `-1`. -/
def jsIndexOf (s : JSStr) (c : Char) : Option Nat :=
  match s with
  | [] => none
  | d :: rest => if d = c then some 0 else (jsIndexOf rest c).map Nat.succ

/-- The rule table built by `parseRules`: a JavaScript `Map` from
single-character keys to replacement strings, in insertion order. -/
abbrev RuleTable := List (Char × JSStr)

/-- JavaScript `Map.get`: the value stored for `c`, if any. -/
def RuleTable.get (rules : RuleTable) (c : Char) : Option JSStr :=
  (rules.find? (fun p => p.1 == c)).map Prod.snd

/-- JavaScript `Map.set`: overwrite the binding for `c` in place if one
exists, otherwise append it. -/
def RuleTable.set : RuleTable → Char → JSStr → RuleTable
  | [], c, v => [(c, v)]
  | (k, w) :: rest, c, v =>
      if k = c then (c, v) :: rest else (k, w) :: RuleTable.set rest c v

/-- Does the line start with `#` (a comment line)? -/
def lineStartsHash (l : JSStr) : Bool :=
  match l with
  | '#' :: _ => true
  | _ => false

/-- One step of the `for (const line of lines)` loop of `parseRules`
(source lines 71–82): skip `#` comments, fail when the line has no `=`,
split at the first `=`, trim both sides, fail unless the left-hand side
is a single character, and store the rule.  The `Except` error payload
stands for the thrown `Error`'s message argument. -/
def parseRuleLine (rules : RuleTable) (line : JSStr) : Except JSStr RuleTable :=
  if lineStartsHash line then .ok rules
  else
    match jsIndexOf line '=' with
    | none => .error line
    | some eq =>
        let lhs := jsTrim (line.take eq)
        let rhs := jsTrim (line.drop (eq + 1))
        match lhs with
        | [c] => .ok (rules.set c rhs)
        | _ => .error lhs

/-- The line preprocessing of `parseRules` (source line 69):
`text.split("\n").map(s => s.trim()).filter(Boolean)`. -/
def ruleLines (text : JSStr) : List JSStr :=
  ((splitNl text).map jsTrim).filter (fun l => !l.isEmpty)

/-- The `for (const line of lines)` loop of `parseRules`: a thrown error
aborts the whole parse, so no partially built table escapes. -/
def parseRulesLoop (rules : RuleTable) : List JSStr → Except JSStr RuleTable
  | [] => .ok rules
  | l :: ls =>
      match parseRuleLine rules l with
      | .error e => .error e
      | .ok r => parseRulesLoop r ls

/-- `parseRules` (source lines 67–85): run the per-line loop over the
preprocessed lines, starting from the empty map. -/
def parseRules (text : JSStr) : Except JSStr RuleTable :=
  parseRulesLoop [] (ruleLines text)

/-- The inner loop of `expand` (source lines 93–95): rewrite every
character by its rule-table mapping (or itself), accumulating with
string concatenation. -/
def expandOnce (rules : RuleTable) (s : JSStr) : JSStr :=
  s.foldl (fun out ch => out ++ ((rules.get ch).getD [ch])) []

/-- `expand` (source lines 90–98): apply `expandOnce` for `iterations`
rounds. -/
def expand (axiom_ : JSStr) (rules : RuleTable) (iterations : Nat) : JSStr :=
  match iterations with
  | 0 => axiom_
  | n + 1 => expand (expandOnce rules axiom_) rules n

/-- One rewrite as worded by the spec: replace every symbol of the
current string by its rule-table mapping (or itself when the symbol has
no rule) and concatenate the replacements in the original symbol
order. -/
def rewriteSpec (rules : RuleTable) (s : JSStr) : JSStr :=
  (s.map (fun ch => (rules.get ch).getD [ch])).flatten

theorem expandOnce_foldl_acc (rules : RuleTable) (s : JSStr) :
    ∀ acc : JSStr,
      s.foldl (fun out ch => out ++ ((rules.get ch).getD [ch])) acc
        = acc ++ rewriteSpec rules s := by
  induction s with
  | nil => intro acc; simp [rewriteSpec]
  | cons c rest ih =>
      intro acc
      simp only [List.foldl_cons, ih, rewriteSpec, List.map_cons, List.flatten_cons,
        List.append_assoc]

theorem expandOnce_eq_rewriteSpec (rules : RuleTable) (s : JSStr) :
    expandOnce rules s = rewriteSpec rules s := by
  simpa using expandOnce_foldl_acc rules s []

/-- C1: `expand` is the n-fold iterate of the single rewrite described
by the spec; in particular zero iterations return the axiom unchanged. -/
theorem expand_eq_iterated_rewrite (axiom_ : JSStr) (rules : RuleTable) (n : Nat) :
    expand axiom_ rules n = (rewriteSpec rules)^[n] axiom_
      ∧ expand axiom_ rules 0 = axiom_ := by
  refine ⟨?_, rfl⟩
  induction n generalizing axiom_ with
  | zero => rfl
  | succ m ih =>
      rw [expand, expandOnce_eq_rewriteSpec, ih, Function.iterate_succ_apply]

theorem rewriteSpec_empty (s : JSStr) : rewriteSpec [] s = s := by
  induction s with
  | nil => rfl
  | cons c rest ih =>
      simp only [rewriteSpec, List.map_cons, List.flatten_cons] at ih ⊢
      simp [RuleTable.get] at ih ⊢
      exact ih

/-- C8: expanding with an empty rule table is the identity, for every
iteration count. -/
theorem expand_empty_rules (axiom_ : JSStr) (n : Nat) :
    expand axiom_ [] n = axiom_ := by
  induction n generalizing axiom_ with
  | zero => rfl
  | succ m ih =>
      rw [expand, expandOnce_eq_rewriteSpec, rewriteSpec_empty, ih]

/-- A line that the rule parser must reject, in the words of the spec:
a non-comment line that contains no `=` separator, or whose left-hand
side (the trimmed text before the first `=`) is not exactly one
character. -/
def MalformedLine (l : JSStr) : Prop :=
  lineStartsHash l = false ∧
    ('=' ∉ l ∨ (jsTrim (l.takeWhile (fun d => d != '='))).length ≠ 1)

instance (l : JSStr) : Decidable (MalformedLine l) := by
  unfold MalformedLine; infer_instance

theorem jsIndexOf_eq_none_iff (l : JSStr) (c : Char) :
    jsIndexOf l c = none ↔ c ∉ l := by
  induction l with
  | nil => simp [jsIndexOf]
  | cons d rest ih =>
      by_cases hd : d = c
      · subst hd; simp [jsIndexOf]
      · simp [jsIndexOf, hd, ih, Ne.symm hd]

theorem jsIndexOf_take_eq_takeWhile (l : JSStr) (c : Char) :
    ∀ i, jsIndexOf l c = some i → l.take i = l.takeWhile (fun d => d != c) := by
  induction l with
  | nil => intro i h; simp [jsIndexOf] at h
  | cons d rest ih =>
      intro i h
      by_cases hd : d = c
      · subst hd
        simp [jsIndexOf] at h
        subst h
        simp [List.takeWhile]
      · simp [jsIndexOf, hd] at h
        obtain ⟨j, hj, hi⟩ := h
        subst hi
        have hbne : (d != c) = true := by simp [hd]
        simp [List.takeWhile, List.take, hbne, ih j hj]

theorem parseRuleLine_error_iff (rules : RuleTable) (l : JSStr) :
    (∃ e, parseRuleLine rules l = .error e) ↔ MalformedLine l := by
  unfold parseRuleLine MalformedLine
  by_cases hh : lineStartsHash l
  · simp [hh]
  · simp only [Bool.not_eq_true] at hh
    cases hidx : jsIndexOf l '=' with
    | none =>
        have hmem := (jsIndexOf_eq_none_iff l '=').mp hidx
        simp [hh, hidx, hmem]
    | some i =>
        have hmem : '=' ∈ l := by
          by_contra hc
          rw [← jsIndexOf_eq_none_iff] at hc
          rw [hidx] at hc
          exact Option.noConfusion hc
        have htake := jsIndexOf_take_eq_takeWhile l '=' i hidx
        cases hlhs : jsTrim (l.takeWhile (fun d => d != '=')) with
        | nil =>
            simp [hh, hidx, htake, hlhs, hmem]
        | cons a rest =>
            cases rest with
            | nil => simp [hh, hidx, htake, hlhs, hmem]
            | cons b rest' => simp [hh, hidx, htake, hlhs, hmem]

theorem parseRulesLoop_error_iff (ls : List JSStr) :
    ∀ rules : RuleTable,
      (∃ e, parseRulesLoop rules ls = .error e) ↔ ∃ l ∈ ls, MalformedLine l := by
  induction ls with
  | nil => intro rules; simp [parseRulesLoop]
  | cons l ls ih =>
      intro rules
      cases hp : parseRuleLine rules l with
      | error e =>
          have hml : MalformedLine l := (parseRuleLine_error_iff rules l).mp ⟨e, hp⟩
          simp [parseRulesLoop, hp, hml]
      | ok r =>
          have hml : ¬ MalformedLine l := by
            rw [← parseRuleLine_error_iff rules l]
            rintro ⟨e, he⟩
            rw [hp] at he
            exact Except.noConfusion he
          simp [parseRulesLoop, hp, ih r, hml]

/-- C3: the rule parser fails exactly when, after dropping blank lines
and `#` comments and trimming each line, some remaining line has no `=`
separator or a left-hand side that is not exactly one character;
otherwise it returns a rule table.  (Failure is a thrown exception, so
no partially built table is ever returned.) -/
theorem parseRules_error_iff (text : JSStr) :
    ((∃ e, parseRules text = .error e) ↔ ∃ l ∈ ruleLines text, MalformedLine l)
      ∧ ((∀ l ∈ ruleLines text, ¬ MalformedLine l) → ∃ r, parseRules text = .ok r) := by
  constructor
  · exact parseRulesLoop_error_iff (ruleLines text) []
  · intro hok
    cases hp : parseRules text with
    | error e =>
        obtain ⟨l, hl, hml⟩ := (parseRulesLoop_error_iff (ruleLines text) []).mp ⟨e, hp⟩
        exact absurd hml (hok l hl)
    | ok r => exact ⟨r, rfl⟩

/-- Witness for C3 at concrete rule texts: `"A=AB\nAB=C"` has a
malformed second line and the parser reports an error, while `"A=B"`
has no malformed line and the parser returns a table. -/
theorem parseRules_error_iff_witness :
    (∃ l ∈ ruleLines ("A=AB\nAB=C".toList), MalformedLine l)
      ∧ (∃ r, parseRules ("A=B".toList) = .ok r) :=
  ⟨(parseRules_error_iff ("A=AB\nAB=C".toList)).1.mp ⟨"AB".toList, rfl⟩,
    (parseRules_error_iff ("A=B".toList)).2 (by decide)⟩

theorem RuleTable.get_set (r : RuleTable) (c : Char) (v : JSStr) :
    (r.set c v).get c = some v := by
  induction r with
  | nil => simp [RuleTable.set, RuleTable.get, List.find?]
  | cons p rest ih =>
      obtain ⟨k, w⟩ := p
      by_cases hk : k = c
      · subst hk
        simp [RuleTable.set, RuleTable.get, List.find?]
      · have hbeq : (k == c) = false := by simp [hk]
        simp only [RuleTable.set, hk, if_false, ite_false, if_neg, not_false_eq_true]
        simp only [RuleTable.get, List.find?, hbeq] at ih ⊢
        exact ih

/-- C9: a duplicated left-hand side is not an error; the last line wins.
First conjunct: overwriting a map key stores the new value (the `Map.set`
the parser uses for every well-formed line).  Second conjunct: parsing
three rules for `A` succeeds and maps `A` to the replacement of the last
line. -/
theorem parseRules_duplicate_lhs_last_wins :
    (∀ (r : RuleTable) (c : Char) (v : JSStr), (r.set c v).get c = some v)
      ∧ (parseRules ("A=AB\nA=B\nA=C".toList)).toOption.map (fun r => r.get 'A')
          = some (some ("C".toList)) := by
  constructor
  · exact RuleTable.get_set
  · decide

/-- The trigonometric primitives the interpreter uses (`Math.PI`,
`Math.cos`, `Math.sin`), kept abstract so the embedding stays
computable; the geometric claims below hold for every interpretation. -/
structure Trig (α : Type) where
  pi : α
  cos : α → α
  sin : α → α

/-- The `{x, y, theta}` record pushed on the turtle's stack (source
line 298). -/
structure TurtleSave (α : Type) where
  x : α
  y : α
  theta : α
  deriving DecidableEq

/-- A segment `{x1, y1, x2, y2}` as emitted by the interpreter (source
line 290). -/
structure Segment (α : Type) where
  x1 : α
  y1 : α
  x2 : α
  y2 : α
  deriving DecidableEq

/-- The interpreter's mutable state: turtle position and heading, the
save/restore stack, and the accumulated segment list. -/
structure TurtleState (α : Type) where
  x : α
  y : α
  theta : α
  stack : List (TurtleSave α)
  segments : List (Segment α)
  deriving DecidableEq

/-- One iteration of the `for (const ch of lsys)` loop of `interpret`
(source lines 286–307). -/
def interpStep [Field α] (T : Trig α) (stepLen angleRad : α)
    (st : TurtleState α) (ch : Char) : TurtleState α :=
  if ch = 'A' ∨ ch = 'B' ∨ ch = 'F' then
    let nx := st.x + stepLen * T.cos st.theta
    let ny := st.y + stepLen * T.sin st.theta
    { st with x := nx, y := ny, segments := st.segments ++ [⟨st.x, st.y, nx, ny⟩] }
  else if ch = '+' then { st with theta := st.theta + angleRad }
  else if ch = '-' then { st with theta := st.theta - angleRad }
  else if ch = '[' then { st with stack := ⟨st.x, st.y, st.theta⟩ :: st.stack }
  else if ch = ']' then
    match st.stack with
    | [] => st
    | s :: rest => { st with x := s.x, y := s.y, theta := s.theta, stack := rest }
  else st

/-- `interpret` (source lines 276–310), exposing the full final state:
angle conversion `angleDeg * Math.PI / 180`, initial position `(0,0)`,
initial heading `-Math.PI / 2`, empty stack, empty segment list, then a
single left-to-right pass. -/
def interpretRun [Field α] (T : Trig α) (lsys : JSStr) (stepLen angleDeg : α) :
    TurtleState α :=
  lsys.foldl (interpStep T stepLen (angleDeg * T.pi / 180)) ⟨0, 0, -(T.pi / 2), [], []⟩

/-- `interpret`'s return value: the accumulated segment list. -/
def interpret [Field α] (T : Trig α) (lsys : JSStr) (stepLen angleDeg : α) :
    List (Segment α) :=
  (interpretRun T lsys stepLen angleDeg).segments

/-- C2: the turtle interpreter is a single left-to-right fold from
position `(0,0)`, heading `-π/2`, and an empty stack, where a drawing
symbol emits one segment and advances by `(step·cos θ, step·sin θ)`
leaving the heading unchanged, `+`/`-` add/subtract the configured
angle (converted from degrees to radians) leaving the position
unchanged, and every symbol outside the `A B F + - [ ]` alphabet leaves
the state untouched and emits nothing. -/
theorem interpret_state_machine [Field α] (T : Trig α) (stepLen angleDeg : α) :
    (∀ lsys : JSStr,
        interpret T lsys stepLen angleDeg =
          (lsys.foldl (interpStep T stepLen (angleDeg * T.pi / 180))
            ⟨0, 0, -(T.pi / 2), [], []⟩).segments)
    ∧ (∀ (st : TurtleState α) (ch : Char), (ch = 'A' ∨ ch = 'B' ∨ ch = 'F') →
        interpStep T stepLen (angleDeg * T.pi / 180) st ch =
          ⟨st.x + stepLen * T.cos st.theta, st.y + stepLen * T.sin st.theta,
            st.theta, st.stack,
            st.segments ++ [⟨st.x, st.y, st.x + stepLen * T.cos st.theta,
              st.y + stepLen * T.sin st.theta⟩]⟩)
    ∧ (∀ st : TurtleState α,
        interpStep T stepLen (angleDeg * T.pi / 180) st '+' =
          { st with theta := st.theta + angleDeg * T.pi / 180 })
    ∧ (∀ st : TurtleState α,
        interpStep T stepLen (angleDeg * T.pi / 180) st '-' =
          { st with theta := st.theta - angleDeg * T.pi / 180 })
    ∧ (∀ (st : TurtleState α) (ch : Char),
        ch ∉ (['A', 'B', 'F', '+', '-', '[', ']'] : List Char) →
          interpStep T stepLen (angleDeg * T.pi / 180) st ch = st) := by
  refine ⟨fun lsys => rfl, ?_, fun st => rfl, fun st => rfl, ?_⟩
  · intro st ch h
    rcases h with rfl | rfl | rfl <;> rfl
  · intro st ch h
    simp only [List.mem_cons, List.not_mem_nil, or_false, not_or] at h
    obtain ⟨hA, hB, hF, hplus, hminus, hopen, hclose⟩ := h
    simp [interpStep, hA, hB, hF, hplus, hminus, hopen, hclose]

/-- A concrete `Trig` over ℚ used only to witness the universally
quantified theorems on explicit inputs. -/
def ratTrig : Trig ℚ :=
  { pi := 180, cos := fun q => q + 1, sin := fun q => q * 2 }

/-- Witness for C2: the drawing-symbol case and the inert-symbol case of
`interpret_state_machine`, instantiated at ℚ on concrete states. -/
theorem interpret_state_machine_witness :
    (interpStep ratTrig 1 ((90 : ℚ) * ratTrig.pi / 180) ⟨0, 0, 5, [], []⟩ 'F' =
        ⟨0 + 1 * ratTrig.cos 5, 0 + 1 * ratTrig.sin 5, 5, [],
          [] ++ [⟨0, 0, 0 + 1 * ratTrig.cos 5, 0 + 1 * ratTrig.sin 5⟩]⟩)
    ∧ (interpStep ratTrig 1 ((90 : ℚ) * ratTrig.pi / 180) ⟨0, 0, 5, [], []⟩ 'Z' =
        ⟨0, 0, 5, [], []⟩) :=
  ⟨(interpret_state_machine ratTrig 1 90).2.1 ⟨0, 0, 5, [], []⟩ 'F'
      (Or.inr (Or.inr rfl)),
    (interpret_state_machine ratTrig 1 90).2.2.2.2 ⟨0, 0, 5, [], []⟩ 'Z' (by decide)⟩

/-- C4: popping with an empty stack is a no-op on the whole state, and
interpreting `"]A"` emits exactly the one segment from the origin along
the initial heading `-π/2`. -/
theorem interpret_unbalanced_pop [Field α] (T : Trig α) (stepLen angleDeg : α) :
    (∀ st : TurtleState α, st.stack = [] →
        interpStep T stepLen (angleDeg * T.pi / 180) st ']' = st)
    ∧ interpret T [']', 'A'] stepLen angleDeg =
        [⟨0, 0, 0 + stepLen * T.cos (-(T.pi / 2)), 0 + stepLen * T.sin (-(T.pi / 2))⟩] := by
  constructor
  · intro st hst
    obtain ⟨x, y, theta, stack, segments⟩ := st
    subst hst
    rfl
  · rfl

/-- Witness for C4: the empty-stack pop at a concrete ℚ state, plus the
concrete `"]A"` run. -/
theorem interpret_unbalanced_pop_witness :
    (interpStep ratTrig 1 ((25 : ℚ) * ratTrig.pi / 180) ⟨2, 3, 4, [], []⟩ ']' =
        ⟨2, 3, 4, [], []⟩)
    ∧ interpret ratTrig [']', 'A'] 1 25 =
        [⟨0, 0, 0 + 1 * ratTrig.cos (-(ratTrig.pi / 2)),
          0 + 1 * ratTrig.sin (-(ratTrig.pi / 2))⟩] :=
  ⟨(interpret_unbalanced_pop ratTrig 1 25).1 ⟨2, 3, 4, [], []⟩ rfl,
    (interpret_unbalanced_pop ratTrig 1 25).2⟩

/-- C7: interpreting `"F[+F]F"` with step 1 and angle 90° emits exactly
three segments; the third segment starts at the endpoint of the first,
and the heading after the `]` equals the heading that was saved at the
`[` (the heading after `"F["`), not the post-branch heading. -/
theorem interpret_branch_restore [Field α] (T : Trig α) :
    (interpret T ['F', '[', '+', 'F', ']', 'F'] 1 90).length = 3
    ∧ (∃ s1 s2 s3 : Segment α,
        interpret T ['F', '[', '+', 'F', ']', 'F'] 1 90 = [s1, s2, s3]
          ∧ s3.x1 = s1.x2 ∧ s3.y1 = s1.y2)
    ∧ (interpretRun T ['F', '[', '+', 'F', ']'] 1 90).theta =
        (interpretRun T ['F', '['] 1 90).theta := by
  refine ⟨rfl, ⟨_, _, _, rfl, rfl, rfl⟩, rfl⟩

/-- The drawing alphabet actually tested by the interpreter (source
line 287). -/
def isDrawingChar (c : Char) : Bool :=
  c == 'A' || c == 'B' || c == 'F'

theorem interpStep_segments_length [Field α] (T : Trig α) (s r : α)
    (st : TurtleState α) (ch : Char) :
    (interpStep T s r st ch).segments.length
      = st.segments.length + (if isDrawingChar ch then 1 else 0) := by
  have hb : isDrawingChar ch = true ↔ (ch = 'A' ∨ ch = 'B' ∨ ch = 'F') := by
    simp [isDrawingChar, or_assoc]
  by_cases h : ch = 'A' ∨ ch = 'B' ∨ ch = 'F'
  · rw [if_pos (hb.mpr h)]
    simp [interpStep, h]
  · rw [if_neg (fun hc => h (hb.mp hc))]
    simp only [interpStep, if_neg h, Nat.add_zero]
    split_ifs <;> try rfl
    rcases hstk : st.stack with _ | ⟨sv, rest⟩ <;> simp [hstk]

theorem interpFold_segments_length [Field α] (T : Trig α) (s r : α) (l : JSStr) :
    ∀ st : TurtleState α,
      ((l.foldl (interpStep T s r) st).segments).length
        = st.segments.length + l.countP isDrawingChar := by
  induction l with
  | nil => intro st; simp
  | cons c rest ih =>
      intro st
      rw [List.foldl_cons, ih, interpStep_segments_length, List.countP_cons]
      by_cases h : isDrawingChar c <;> simp [h] <;> omega

theorem countP_drawing_eq_counts (l : JSStr) :
    l.countP isDrawingChar = l.count 'A' + l.count 'B' + l.count 'F' := by
  induction l with
  | nil => rfl
  | cons c rest ih =>
      rw [List.countP_cons, List.count_cons, List.count_cons, List.count_cons, ih]
      by_cases hA : c = 'A'
      · subst hA; simp [isDrawingChar] <;> omega
      · by_cases hB : c = 'B'
        · subst hB; simp [isDrawingChar] <;> omega
        · by_cases hF : c = 'F'
          · subst hF; simp [isDrawingChar] <;> omega
          · have hd : isDrawingChar c = false := by simp [isDrawingChar, hA, hB, hF]
            simp [hd, hA, hB, hF] <;> omega

/-- C10: the interpreter draws exactly on `A`, `B` and `F`: the number
of emitted segments equals the number of occurrences of those three
characters, so no other character ever emits a segment. -/
theorem interpret_segment_count [Field α] (T : Trig α) (stepLen angleDeg : α)
    (lsys : JSStr) :
    (interpret T lsys stepLen angleDeg).length
      = lsys.count 'A' + lsys.count 'B' + lsys.count 'F' := by
  unfold interpret interpretRun
  rw [interpFold_segments_length, countP_drawing_eq_counts]
  simp

/-- The module-level animation globals (source lines 4 and 128–181):
`flags` records the `cancelled` field of every handle ever issued
(handle `i`'s flag is `flags[i]`), and `current` is `currentAnim`. -/
structure AnimGlobals where
  flags : List Bool
  current : Option Nat
  deriving DecidableEq

/-- The closure state of one `drawSegmentsAnimated` call: the length of
its captured `segments`, its `batch`, and its cursor `i`. -/
structure FrameLoop where
  total : Nat
  batch : Nat
  cursor : Nat
  deriving DecidableEq

/-- The observable effect of one `frame()` call: the updated globals and
closure state, the indices of the segments drawn by this tick, and
whether a next tick was scheduled. -/
structure TickResult where
  globals : AnimGlobals
  loop : FrameLoop
  drawn : List Nat
  scheduled : Bool
  deriving DecidableEq

/-- Lines 132–136 of `drawSegmentsAnimated`: set the previous current
handle's `cancelled` flag, then install a fresh uncancelled handle;
returns the new handle's id. -/
def startHandle (g : AnimGlobals) : AnimGlobals × Nat :=
  let g1 : AnimGlobals :=
    match g.current with
    | some h => { flags := g.flags.set h true, current := none }
    | none => g
  ({ flags := g1.flags ++ [false], current := some g1.flags.length }, g1.flags.length)

/-- `stopDrawingAnimation` (source lines 178–181). -/
def stopDrawingAnimation (g : AnimGlobals) : AnimGlobals :=
  match g.current with
  | some h => { flags := g.flags.set h true, current := none }
  | none => { g with current := none }

/-- One `frame()` tick (source lines 152–173).  The guard reads the
module-level `currentAnim` — not the handle that was issued when this
loop started — which is exactly what the `frame` closure does; on
completion the loop unconditionally clears `currentAnim`. -/
def frameTick (g : AnimGlobals) (L : FrameLoop) : TickResult :=
  match g.current with
  | none => ⟨g, L, [], false⟩
  | some h =>
      if g.flags.getD h false then ⟨g, L, [], false⟩
      else
        let k := min L.batch (L.total - L.cursor)
        let drawn := (List.range k).map (fun j => L.cursor + j)
        let L' : FrameLoop := { L with cursor := L.cursor + k }
        if L'.cursor < L.total then
          { globals := g, loop := L', drawn := drawn, scheduled := true }
        else
          { globals := { flags := g.flags, current := none }, loop := L',
            drawn := drawn, scheduled := false }

/-- `drawSegmentsAnimated` (source lines 128–176): replace the current
handle, start a fresh loop at cursor 0, and run the first `frame()`
synchronously.  Returns the first tick's result and the new handle's
id. -/
def drawSegmentsAnimated (g : AnimGlobals) (total batch : Nat) : TickResult × Nat :=
  (frameTick (startHandle g).1 ⟨total, batch, 0⟩, (startHandle g).2)

/-- C5 fails on the code: start animation A (3 segments, batch 1), then
animation B.  Starting B does set A's cancellation flag before issuing
the fresh handle, but A's already-scheduled tick then passes the guard —
the `frame` closure consults the module-level `currentAnim` (now B's
uncancelled handle) instead of its own handle — so the cancelled handle
A draws segment 1 and schedules yet another tick. -/
theorem cancelled_handle_still_draws :
    (drawSegmentsAnimated
        ((drawSegmentsAnimated ⟨[], none⟩ 3 1).1.globals) 3 1).1.globals.flags.getD
        (drawSegmentsAnimated ⟨[], none⟩ 3 1).2 false = true
    ∧ (frameTick
        (drawSegmentsAnimated
          ((drawSegmentsAnimated ⟨[], none⟩ 3 1).1.globals) 3 1).1.globals
        (drawSegmentsAnimated ⟨[], none⟩ 3 1).1.loop).drawn = [1]
    ∧ (frameTick
        (drawSegmentsAnimated
          ((drawSegmentsAnimated ⟨[], none⟩ 3 1).1.globals) 3 1).1.globals
        (drawSegmentsAnimated ⟨[], none⟩ 3 1).1.loop).scheduled = true := by
  decide

/-- C6 fails on the code in the same interleaving: after starting
animation B, A's handle flag is set, yet A's pending tick executes and
schedules a further tick (the guard consults the module-level
`currentAnim`); running the two stale loops on shows A drawing through
its last segment, clearing `currentAnim` on completion, and thereby
aborting B's loop at cursor 2 of 3. -/
theorem stale_tick_runs_after_cancel :
    ((drawSegmentsAnimated
        ((drawSegmentsAnimated ⟨[], none⟩ 3 1).1.globals) 3 1).1.globals.flags.getD
        (drawSegmentsAnimated ⟨[], none⟩ 3 1).2 false = true)
    ∧ ((frameTick
          (drawSegmentsAnimated
            ((drawSegmentsAnimated ⟨[], none⟩ 3 1).1.globals) 3 1).1.globals
          (drawSegmentsAnimated ⟨[], none⟩ 3 1).1.loop).scheduled = true)
    ∧ ((frameTick
          (frameTick
            (drawSegmentsAnimated
              ((drawSegmentsAnimated ⟨[], none⟩ 3 1).1.globals) 3 1).1.globals
            (drawSegmentsAnimated ⟨[], none⟩ 3 1).1.loop).globals
          (frameTick
            (drawSegmentsAnimated
              ((drawSegmentsAnimated ⟨[], none⟩ 3 1).1.globals) 3 1).1.globals
            (drawSegmentsAnimated ⟨[], none⟩ 3 1).1.loop).loop).drawn = [2])
    ∧ ((frameTick
          (frameTick
            (drawSegmentsAnimated
              ((drawSegmentsAnimated ⟨[], none⟩ 3 1).1.globals) 3 1).1.globals
            (drawSegmentsAnimated ⟨[], none⟩ 3 1).1.loop).globals
          (frameTick
            (drawSegmentsAnimated
              ((drawSegmentsAnimated ⟨[], none⟩ 3 1).1.globals) 3 1).1.globals
            (drawSegmentsAnimated ⟨[], none⟩ 3 1).1.loop).loop).globals.current = none)
    ∧ ((frameTick
          (frameTick
            (frameTick
              (drawSegmentsAnimated
                ((drawSegmentsAnimated ⟨[], none⟩ 3 1).1.globals) 3 1).1.globals
              (drawSegmentsAnimated ⟨[], none⟩ 3 1).1.loop).globals
            (frameTick
              (drawSegmentsAnimated
                ((drawSegmentsAnimated ⟨[], none⟩ 3 1).1.globals) 3 1).1.globals
              (drawSegmentsAnimated ⟨[], none⟩ 3 1).1.loop).loop).globals
          (drawSegmentsAnimated
            ((drawSegmentsAnimated ⟨[], none⟩ 3 1).1.globals) 3 1).1.loop).drawn = []) := by
  decide
